import Mathlib

/-!
Verification of the nostream distributed-storage coordinator scripts.

The development shallowly embeds the operator scripts and SQL/migration
objects of the repository:

* `scripts/add-storage-node.sh` — whitelist update, FDW registration and
  `ATTACH PARTITION` (`addStorageNode`);
* `scripts/remove-storage-node.sh` — whitelist removal, `DETACH PARTITION`
  and FDW-object drop (`removeStorageNode`);
* `scripts/archive-events.sh` — the windowed copy-then-delete archival loop
  (`archiveRun`);
* the partition layout and the `process_event_tags` trigger from the
  range-partitioning migration, and the `events_data` unique index from
  `storage-init.sql`;
* `messageHandlerFactory` from the relay's message dispatch.

Machine state is modelled with explicit lists; fallible steps return
explicit results; remote-side command failures are modelled by an oracle
telling whether the k-th remote insert command reaches the storage node
(the script swallows such failures with an or-else-echo-0, which the
embedding reproduces by continuing the loop either way).
-/

/- ------------------------------------------------------------------ -/
/- Node-name validation, shared by all three operator scripts.        -/
/- ------------------------------------------------------------------ -/

/-- Characters admitted by the scripts' character class `[a-zA-Z0-9_]`. -/
def nameCharOk (c : Char) : Bool := c.isAlpha || c.isDigit || c = '_'

/-- Does one input line fully match the pattern of the scripts'
name check, namely one-or-more name characters anchored at both ends? -/
def nameLineOk (l : List Char) : Bool := !l.isEmpty && l.all nameCharOk

/-- Splits a character stream into lines (separator consumed), as the
line-oriented text tools used by the scripts do. -/
def splitLinesAux : List Char → List Char → List (List Char)
  | [], cur => [cur.reverse]
  | c :: cs, cur =>
    if c = '\n' then cur.reverse :: splitLinesAux cs []
    else splitLinesAux cs (c :: cur)

def splitLines (s : String) : List (List Char) := splitLinesAux s.toList []

/-- From the three scripts: the quiet grep over an echoed node name.  A
quiet grep succeeds when ANY line of its input matches the pattern, so a
name containing a newline passes when at least one of its lines does. -/
def grepNameCheck (s : String) : Bool := (splitLines s).any nameLineOk

/-- The scripts' pattern applied to the whole argument string: every
character a name character and the name non-empty. -/
def fullNameMatch (s : String) : Bool := nameLineOk s.toList

/- ------------------------------------------------------------------ -/
/- Partition ranges (bounds may be MINVALUE or MAXVALUE).             -/
/- ------------------------------------------------------------------ -/

/-- Bound of a range partition over `event_created_at`: MINVALUE, a
concrete timestamp, or MAXVALUE. -/
inductive TsBound where
  | ninf
  | fin (t : Int)
  | pinf
deriving DecidableEq, Repr

/-- Strict order on partition bounds. -/
def TsBound.ltB : TsBound → TsBound → Bool
  | .ninf, .ninf => false
  | .ninf, _ => true
  | .fin _, .ninf => false
  | .fin a, .fin b => a < b
  | .fin _, .pinf => true
  | .pinf, _ => false

def TsBound.maxB (a b : TsBound) : TsBound := if TsBound.ltB a b then b else a

def TsBound.minB (a b : TsBound) : TsBound := if TsBound.ltB a b then a else b

/-- Half-open range `[lo, hi)` of a partition, as in
`FOR VALUES FROM (lo) TO (hi)`. -/
structure PRange where
  lo : TsBound
  hi : TsBound
deriving DecidableEq, Repr

/-- Two half-open ranges intersect exactly when the larger lower bound is
below the smaller upper bound; this is the condition PostgreSQL enforces
when attaching a partition next to existing ones. -/
def rangesOverlap (a b : PRange) : Bool :=
  TsBound.ltB (TsBound.maxB a.lo b.lo) (TsBound.minB a.hi b.hi)

/-- An attached partition of the `events` table: its relation name and
its bound range.  `events_hot` is one of them. -/
structure Partition where
  name : String
  range : PRange
deriving DecidableEq, Repr

/-- Time constraint of a REQ translated to a range over the partition
key: a `since` filter means `event_created_at` at least `s`, no time
filter means the whole key space. -/
def queryRange (since : Option Int) : PRange :=
  ⟨(match since with | none => TsBound.ninf | some s => TsBound.fin s), TsBound.pinf⟩

/-- Partition pruning as documented in DISTRIBUTED-STORAGE.md (query
fan-out behaviour): PostgreSQL queries every partition whose range could
contain matching rows, i.e. every partition whose range intersects the
query's key constraint. -/
def visitedPartitions (parts : List Partition) (since : Option Int) : List Partition :=
  parts.filter (fun p => rangesOverlap p.range (queryRange since))

/- ------------------------------------------------------------------ -/
/- Mesh (yggdrasil) whitelist state and coordinator topology state.   -/
/- ------------------------------------------------------------------ -/

/-- State of the coordinator's yggdrasil configuration files:
`yggdrasil.conf` holding the `AllowedPublicKeys` array and `nodes.json`
holding the recorded node-name-to-key map.  `filesPresent` models
whether those files exist on disk (both scripts test this first). -/
structure MeshState where
  filesPresent : Bool
  allowedKeys : List String
  nodeKeys : List (String × String)
deriving DecidableEq, Repr

/-- Lookup of the recorded key for a node name in `nodes.json`. -/
def lookupNodeKey (m : List (String × String)) (name : String) : Option String :=
  (m.find? (fun p => p.1 == name)).map Prod.snd

/-- The jq assignment recording a name-to-key mapping in `nodes.json`. -/
def upsertNodeKey (m : List (String × String)) (name key : String) : List (String × String) :=
  if m.any (fun p => p.1 == name) then
    m.map (fun p => if p.1 == name then (name, key) else p)
  else m ++ [(name, key)]

/-- Coordinator-visible topology: the mesh configuration and the set of
partitions currently attached to `events`. -/
structure CoordState where
  mesh : MeshState
  partitions : List Partition
deriving DecidableEq, Repr

/-- Relation name used for a node's foreign partition. -/
def archivePartName (node : String) : String := "events_archive_" ++ node

/-- Outcome of running one of the operator scripts: an early `exit code`,
or the psql block ran to completion with the given success of its
`ALTER TABLE` step (psql is invoked without stop-on-error, so the script
itself still exits 0 even when that step fails). -/
inductive ScriptResult where
  | exited (code : Nat)
  | completed (alterOk : Bool)
deriving DecidableEq, Repr

/-- Step 1 of `add-storage-node.sh`: when a public key was supplied and
is not yet whitelisted, append it to `AllowedPublicKeys` and record the
name-to-key mapping in `nodes.json`; when it is already present, skip
both updates. -/
def meshAllow (mesh : MeshState) (name key : String) : MeshState :=
  if mesh.allowedKeys.any (fun k => k == key) then mesh
  else { mesh with
    allowedKeys := mesh.allowedKeys ++ [key],
    nodeKeys := upsertNodeKey mesh.nodeKeys name key }

/-- Arguments of `add-storage-node.sh` (positional arguments plus the
optional public-key flag), with the timestamp bounds already parsed. -/
structure AddNodeArgs where
  yggAddr : String
  nodeName : String
  dbPassword : String
  fromTs : TsBound
  toTs : TsBound
  pubkey : Option String
deriving DecidableEq, Repr

/-- Step 2 of `add-storage-node.sh`: the psql block creating the FDW
server objects and attaching `events_archive_NAME` for the given range.
`ATTACH PARTITION` is rejected by PostgreSQL when the new range overlaps
an attached partition's range or when the relation is already attached;
the FDW objects are created with if-not-exists and are not tracked here. -/
def attachStep (st : CoordState) (a : AddNodeArgs) : CoordState × ScriptResult :=
  let r : PRange := ⟨a.fromTs, a.toTs⟩
  let pname := archivePartName a.nodeName
  if st.partitions.any (fun p => rangesOverlap p.range r || p.name == pname) then
    (st, ScriptResult.completed false)
  else
    ({ st with partitions := st.partitions ++ [⟨pname, r⟩] }, ScriptResult.completed true)

/-- Embedding of `add-storage-node.sh`: validate the node name with the
quiet grep, then (when a key was given) update the whitelist files and
restart yggdrasil, then run the psql registration block.  When a key is
given but the yggdrasil config file is absent the script exits 1. -/
def addStorageNode (st : CoordState) (a : AddNodeArgs) : CoordState × ScriptResult :=
  if !grepNameCheck a.nodeName then (st, ScriptResult.exited 1)
  else
    match a.pubkey with
    | some k =>
      if !st.mesh.filesPresent then (st, ScriptResult.exited 1)
      else attachStep { st with mesh := meshAllow st.mesh a.nodeName k } a
    | none => attachStep st a

/-- Externally visible steps performed by `remove-storage-node.sh`, in
execution order. -/
inductive OpAction where
  | removeAllowedKey (key : String)
  | reloadMesh
  | detachPartition (part : String)
  | dropFdwObjects (node : String)
deriving DecidableEq, Repr

/-- Embedding of `remove-storage-node.sh`: validate the name, then (when
the config files exist and a key is recorded for the name) remove the key
from `AllowedPublicKeys`, delete the `nodes.json` entry and restart
yggdrasil, then run the psql block detaching the partition and dropping
the FDW objects.  Returns the final state, the ordered list of performed
steps, and the script outcome. -/
def removeStorageNode (st : CoordState) (name : String) :
    CoordState × List OpAction × ScriptResult :=
  if !grepNameCheck name then (st, [], ScriptResult.exited 1)
  else
    let step1 : CoordState × List OpAction :=
      if st.mesh.filesPresent then
        match lookupNodeKey st.mesh.nodeKeys name with
        | some k =>
          ({ st with mesh := { st.mesh with
              allowedKeys := st.mesh.allowedKeys.filter (fun x => x != k),
              nodeKeys := st.mesh.nodeKeys.filter (fun p => p.1 != name) } },
           [OpAction.removeAllowedKey k, OpAction.reloadMesh])
        | none => (st, [])
      else (st, [])
    let pname := archivePartName name
    let detachOk := step1.1.partitions.any (fun p => p.name == pname)
    let st2 := { step1.1 with
      partitions := step1.1.partitions.filter (fun p => p.name != pname) }
    (st2, step1.2 ++ [OpAction.detachPartition pname, OpAction.dropFdwObjects name],
     ScriptResult.completed detachOk)

/- ------------------------------------------------------------------ -/
/- Event rows, the tag-index trigger, duplicate-tolerant insert.      -/
/- ------------------------------------------------------------------ -/

/-- Row of the `events` table (and of the storage node's `events_data`):
the content-addressed identifier `event_id`, the partition key
`event_created_at`, and the raw tag pairs carried in `event_tags`.
Columns not consulted by the embedded operations are omitted. -/
structure EventRow where
  event_id : String
  created_at : Int
  tags : List (String × String)
deriving DecidableEq, Repr

/-- Row of the local `event_tags` secondary-index table. -/
structure TagEntry where
  event_id : String
  tag_name : String
  tag_value : String
deriving DecidableEq, Repr

/-- Rows the `process_event_tags` trigger derives from an event's tag
set: pairs whose name is a single character and whose value is non-empty. -/
def deriveTagEntries (r : EventRow) : List TagEntry :=
  (r.tags.filter (fun p => p.1.length == 1 && p.2 != "")).map
    (fun p => ⟨r.event_id, p.1, p.2⟩)

/-- Effect of `process_event_tags` for a deleted row: the trigger first
deletes every `event_tags` row of the old event identifier, and on a
DELETE operation inserts nothing back. -/
def processEventTagsOnDelete (tags : List TagEntry) (old : EventRow) : List TagEntry :=
  tags.filter (fun e => e.event_id != old.event_id)

/-- Effect of `process_event_tags` for an inserted or updated row:
delete the identifier's old entries, then insert the freshly derived
ones. -/
def processEventTagsOnInsert (tags : List TagEntry) (new : EventRow) : List TagEntry :=
  (tags.filter (fun e => e.event_id != new.event_id)) ++ deriveTagEntries new

/-- Duplicate-tolerant insert into a table carrying a unique index on
`event_id` (`events_hot_event_id_idx` locally, `events_data_event_id_uidx`
on the storage node): `INSERT ... ON CONFLICT (event_id) DO NOTHING`. -/
def insertOnConflictDoNothing (tbl : List EventRow) (r : EventRow) : List EventRow :=
  if tbl.any (fun x => x.event_id == r.event_id) then tbl else tbl ++ [r]

def insertRowsOCDN (tbl : List EventRow) (rows : List EventRow) : List EventRow :=
  rows.foldl insertOnConflictDoNothing tbl

/- ------------------------------------------------------------------ -/
/- The archival job of archive-events.sh.                             -/
/- ------------------------------------------------------------------ -/

/-- Insertion of a row into a list sorted by `event_created_at`. -/
def insertSorted (r : EventRow) : List EventRow → List EventRow
  | [] => [r]
  | x :: xs =>
    if r.created_at < x.created_at then r :: x :: xs else x :: insertSorted r xs

/-- Sorting by `event_created_at`, modelling the copy query's ORDER BY. -/
def sortByCreatedAt (l : List EventRow) : List EventRow := l.foldr insertSorted []

/-- Predicate of one archival batch window: the copy and delete
statements both select `event_created_at >= bs AND event_created_at < be`. -/
def inWindow (bs be : Int) (r : EventRow) : Bool :=
  bs ≤ r.created_at && r.created_at < be

/-- Rows of the current window as produced by the copy query: the hot
rows inside the window, ordered by `event_created_at`. -/
def windowRows (hot : List EventRow) (bs be : Int) : List EventRow :=
  sortByCreatedAt (hot.filter (inWindow bs be))

/-- Database state seen by `archive-events.sh`: the hot partition, the
target node's `events_data` table behind `events_archive_NAME`, and the
local `event_tags` table. -/
structure ArchState where
  hot : List EventRow
  remote : List EventRow
  eventTags : List TagEntry
deriving DecidableEq, Repr

/-- Inner sub-batch loop of the archival window: while the offset is
below the window count, run one psql INSERT of the next `LIMIT B OFFSET k`
slice into the foreign table.  `oracle i` tells whether the i-th insert
command of the run reaches the remote; on failure the script's
or-else-echo-0 swallows the error, so the loop continues either way.  The
script's running ARCHIVED counter is incremented by the batch size per
sub-batch (the psql output it reads back is the literal batch size, not a
row count).  The fuel is the pending row count, which bounds the
iterations whenever the batch size is positive; a batch size of zero
makes the script loop forever and is modelled as an immediate stop. -/
def copySubLoop (B : Nat) (oracle : Nat → Bool) :
    Nat → Nat → List EventRow → List EventRow → Int → List EventRow × Int × Nat
  | 0, idx, _, remote, archived => (remote, archived, idx)
  | _ + 1, idx, [], remote, archived => (remote, archived, idx)
  | fuel + 1, idx, p :: ps, remote, archived =>
    let slice := (p :: ps).take B
    let remote' := if oracle idx then insertRowsOCDN remote slice else remote
    copySubLoop B oracle fuel (idx + 1) ((p :: ps).drop B) remote' (archived + (B : Int))

/-- Progress accumulator of an archival run: the database state, the
script's ARCHIVED and DELETED counters, and the index of the next remote
insert command (feeding the failure oracle). -/
structure RunAcc where
  st : ArchState
  archived : Int
  deleted : Int
  oidx : Nat
deriving Repr

/-- Outer window loop of `archive-events.sh`: while the window start is
below the cutoff, clamp the window end to the cutoff, count the hot rows
in the window, skip empty windows, otherwise copy the window to the
remote in sub-batches and then delete the same window's rows from
`events_hot`.  The delete statement fires the row-level
`process_event_tags` trigger cloned from the partitioned parent onto
`events_hot`, which removes each deleted event's `event_tags` rows.  The
fuel bounds the iterations; it suffices whenever the batch window is
positive (a non-positive batch window makes the script loop forever on a
non-empty window range and is modelled as a stop at fuel exhaustion). -/
def windowLoop (cutoff W : Int) (B : Nat) (oracle : Nat → Bool) :
    Nat → Int → RunAcc → RunAcc
  | 0, _, acc => acc
  | fuel + 1, bs, acc =>
    if bs < cutoff then
      let be := min (bs + W) cutoff
      let wrows := windowRows acc.st.hot bs be
      if wrows.length = 0 then windowLoop cutoff W B oracle fuel be acc
      else
        let cres := copySubLoop B oracle wrows.length acc.oidx wrows acc.st.remote acc.archived
        let deletedRows := acc.st.hot.filter (inWindow bs be)
        let hot' := acc.st.hot.filter (fun r => !inWindow bs be r)
        let tags' := deletedRows.foldl processEventTagsOnDelete acc.st.eventTags
        windowLoop cutoff W B oracle fuel be
          ⟨⟨hot', cres.1, tags'⟩, cres.2.1, acc.deleted + (deletedRows.length : Int), cres.2.2⟩
    else acc

/-- Closing report of an archival run: either the nothing-to-do early
exit, or the final ARCHIVED and DELETED counters. -/
inductive ArchiveReport where
  | nothingToArchive
  | done (archived deleted : Int)
deriving DecidableEq, Repr

/-- MIN(event_created_at) over a non-empty row set (0 on an empty set,
which the run never consults since it exits first). -/
def minCreatedAt : List EventRow → Int
  | [] => 0
  | r :: rs => rs.foldl (fun m x => min m x.created_at) r.created_at

/-- Embedding of a confirmed (non-dry-run) invocation of
`archive-events.sh` against an attached node partition: count the hot
rows below the cutoff and exit reporting nothing to archive when there
are none; otherwise start the window loop at their minimum
`event_created_at`.  The fuel passed to the loop exceeds the remaining
timestamp span, which bounds the iterations whenever the batch window is
at least 1. -/
def archiveRun (cutoff W : Int) (B : Nat) (oracle : Nat → Bool) (st : ArchState) :
    ArchState × ArchiveReport :=
  let below := st.hot.filter (fun r => r.created_at < cutoff)
  if below.length = 0 then (st, ArchiveReport.nothingToArchive)
  else
    let minTs := minCreatedAt below
    let acc := windowLoop cutoff W B oracle ((cutoff - minTs).toNat + 1) minTs ⟨st, 0, 0, 0⟩
    (acc.st, ArchiveReport.done acc.archived acc.deleted)

/- ------------------------------------------------------------------ -/
/- messageHandlerFactory.                                             -/
/- ------------------------------------------------------------------ -/

/-- Handlers the factory can construct. -/
inductive Handler where
  | eventMessageHandler
  | subscribeMessageHandler
  | authEventMessageHandler
  | unsubscribeMessageHandler
deriving DecidableEq, Repr

/-- Modelled from the spec: the `MessageType` enum lives in
`@types/messages`, which is not among the provided sources; its members
are the wire names of the message types, as used by the relay protocol
boundary the spec describes. -/
def MessageTypeEVENT : String := "EVENT"

def MessageTypeREQ : String := "REQ"

def MessageTypeAUTH : String := "AUTH"

def MessageTypeCLOSE : String := "CLOSE"

/-- The JavaScript `String(x).substring(0, 64)`: at most the first 64
characters. -/
def substring64 (s : String) : String := String.mk (s.toList.take 64)

/-- Embedding of `messageHandlerFactory` applied to an incoming message:
dispatch on the message's leading type element, returning a handler for
the four known types and throwing on anything else with the unknown type
truncated into the error text. -/
def messageHandlerFactory (msgType : String) : Except String Handler :=
  if msgType = MessageTypeEVENT then Except.ok Handler.eventMessageHandler
  else if msgType = MessageTypeREQ then Except.ok Handler.subscribeMessageHandler
  else if msgType = MessageTypeAUTH then Except.ok Handler.authEventMessageHandler
  else if msgType = MessageTypeCLOSE then Except.ok Handler.unsubscribeMessageHandler
  else Except.error ("Unknown message type: " ++ substring64 msgType)

/- ------------------------------------------------------------------ -/
/- Shared lemmas.                                                     -/
/- ------------------------------------------------------------------ -/

theorem mem_insertSorted {r x : EventRow} {l : List EventRow} :
    x ∈ insertSorted r l ↔ x ∈ r :: l := by
  induction l with
  | nil => simp [insertSorted]
  | cons y ys ih =>
    simp only [insertSorted]
    split
    · simp
    · simp only [List.mem_cons] at ih ⊢
      rw [ih]
      tauto

theorem mem_sortByCreatedAt {x : EventRow} {l : List EventRow} :
    x ∈ sortByCreatedAt l ↔ x ∈ l := by
  induction l with
  | nil => simp [sortByCreatedAt]
  | cons y ys ih =>
    simp only [sortByCreatedAt, List.foldr] at ih ⊢
    rw [mem_insertSorted]
    simp [ih]

theorem length_insertSorted (r : EventRow) (l : List EventRow) :
    (insertSorted r l).length = l.length + 1 := by
  induction l with
  | nil => rfl
  | cons y ys ih =>
    simp only [insertSorted]
    split <;> simp [ih]

theorem length_sortByCreatedAt (l : List EventRow) :
    (sortByCreatedAt l).length = l.length := by
  induction l with
  | nil => rfl
  | cons y ys ih =>
    simp only [sortByCreatedAt, List.foldr] at ih ⊢
    rw [length_insertSorted, ih, List.length_cons]

theorem mem_insertOnConflictDoNothing {x : EventRow} {tbl : List EventRow} {r : EventRow}
    (h : x ∈ insertOnConflictDoNothing tbl r) : x ∈ tbl ∨ x = r := by
  unfold insertOnConflictDoNothing at h
  split at h
  · exact Or.inl h
  · rcases List.mem_append.mp h with h' | h'
    · exact Or.inl h'
    · simp at h'
      exact Or.inr h'

theorem mem_insertRowsOCDN {x : EventRow} {tbl rows : List EventRow}
    (h : x ∈ insertRowsOCDN tbl rows) : x ∈ tbl ∨ x ∈ rows := by
  induction rows generalizing tbl with
  | nil => exact Or.inl h
  | cons r rs ih =>
    simp only [insertRowsOCDN, List.foldl] at h
    rcases ih h with h' | h'
    · rcases mem_insertOnConflictDoNothing h' with h'' | h''
      · exact Or.inl h''
      · exact Or.inr (by simp [h''])
    · exact Or.inr (List.mem_cons_of_mem _ h')

theorem mem_copySubLoop {x : EventRow} {B : Nat} {oracle : Nat → Bool}
    {fuel idx : Nat} {pending remote : List EventRow} {archived : Int}
    (h : x ∈ (copySubLoop B oracle fuel idx pending remote archived).1) :
    x ∈ remote ∨ x ∈ pending := by
  induction fuel generalizing idx pending remote archived with
  | zero => exact Or.inl h
  | succ fuel ih =>
    match pending with
    | [] => exact Or.inl h
    | p :: ps =>
      simp only [copySubLoop] at h
      rcases ih h with h' | h'
      · split at h'
        · rcases mem_insertRowsOCDN h' with h'' | h''
          · exact Or.inl h''
          · exact Or.inr (List.take_subset _ _ h'')
        · exact Or.inl h'
      · exact Or.inr (List.drop_subset _ _ h')

theorem mem_windowRows {x : EventRow} {hot : List EventRow} {bs be : Int} :
    x ∈ windowRows hot bs be ↔ x ∈ hot ∧ inWindow bs be x = true := by
  unfold windowRows
  rw [mem_sortByCreatedAt, List.mem_filter]

/-- Membership in the hot tier only shrinks along the window loop. -/
theorem windowLoop_hot_subset {cutoff W : Int} {B : Nat} {oracle : Nat → Bool}
    {fuel : Nat} {bs : Int} {acc : RunAcc} {r : EventRow}
    (h : r ∈ (windowLoop cutoff W B oracle fuel bs acc).st.hot) : r ∈ acc.st.hot := by
  induction fuel generalizing bs acc with
  | zero => exact h
  | succ fuel ih =>
    simp only [windowLoop] at h
    split at h
    · split at h
      · exact ih h
      · have h' := ih h
        simp only [List.mem_filter] at h'
        exact h'.1
    · exact h

/- ------------------------------------------------------------------ -/
/- Claim theorems.                                                    -/
/- ------------------------------------------------------------------ -/

/-- C1: the claim states that a failed sub-batch copy aborts the run
before the window's delete, so no hot row is lost.  In the script the
copy command's failure is swallowed by the or-else-echo-0 and its
result is never checked, so the window delete runs regardless: with one
hot row below the cutoff and a remote insert that never succeeds, the
run ends with the row deleted from the hot tier and absent from the
remote — permanent data loss, contradicting both the claim and the
script's own header comment. -/
theorem c1_failed_copy_still_deletes_window :
    archiveRun 200 86400 5000 (fun _ => false)
      ⟨[⟨("e1"), 100, []⟩], [], []⟩ =
      (⟨[], [], []⟩, ArchiveReport.done 5000 1) := by decide

/-- C2: the claim states that archival never removes `event_tags`
entries of a moved event.  The `insert_event_tags` row trigger is cloned
from the partitioned parent onto `events_hot`, fires for the archival
job's `DELETE FROM events_hot`, and its DELETE branch removes the old
row's `event_tags` entries without re-inserting them: after a fully
successful run that moves the event to the remote, its tag entry is
gone. -/
theorem c2_archival_removes_tag_entries :
    archiveRun 200 86400 5000 (fun _ => true)
      ⟨[⟨("e1"), 100, [(("e"), ("abc"))]⟩], [], [⟨("e1"), ("e"), ("abc")⟩]⟩ =
      (⟨[], [⟨("e1"), 100, [(("e"), ("abc"))]⟩], []⟩, ArchiveReport.done 5000 1) := by
  decide

/-- C7: inserting the same event record twice into the same partition
(both `events_hot` and the node's `events_data` carry a unique index on
`event_id` and the inserts are `ON CONFLICT (event_id) DO NOTHING`) is a
no-op the second time: the table and hence its row count are unchanged. -/
theorem c7_duplicate_insert_noop (tbl : List EventRow) (r : EventRow) :
    insertOnConflictDoNothing (insertOnConflictDoNothing tbl r) r =
      insertOnConflictDoNothing tbl r ∧
    (insertOnConflictDoNothing (insertOnConflictDoNothing tbl r) r).length =
      (insertOnConflictDoNothing tbl r).length := by
  have h : (insertOnConflictDoNothing tbl r).any (fun x => x.event_id == r.event_id) = true := by
    unfold insertOnConflictDoNothing
    split
    case isTrue h => exact h
    case isFalse h => simp [List.any_append]
  have heq : insertOnConflictDoNothing (insertOnConflictDoNothing tbl r) r =
      insertOnConflictDoNothing tbl r := by
    conv_lhs => rw [insertOnConflictDoNothing]
    rw [if_pos h]
  exact ⟨heq, by rw [heq]⟩

/-- C8: `messageHandlerFactory` returns a handler without throwing for
the four known message types EVENT, REQ, AUTH and CLOSE, and for any
other message type throws an error whose text carries the unknown type
truncated to at most 64 characters. -/
theorem c8_factory_known_types_and_truncated_error (s : String)
    (hs : s ≠ ("EVENT") ∧ s ≠ ("REQ") ∧ s ≠ ("AUTH") ∧ s ≠ ("CLOSE")) :
    messageHandlerFactory ("EVENT") = Except.ok Handler.eventMessageHandler ∧
    messageHandlerFactory ("REQ") = Except.ok Handler.subscribeMessageHandler ∧
    messageHandlerFactory ("AUTH") = Except.ok Handler.authEventMessageHandler ∧
    messageHandlerFactory ("CLOSE") = Except.ok Handler.unsubscribeMessageHandler ∧
    messageHandlerFactory s = Except.error (("Unknown message type: ") ++ substring64 s) ∧
    (substring64 s).length ≤ 64 := by
  obtain ⟨h1, h2, h3, h4⟩ := hs
  refine ⟨rfl, rfl, rfl, rfl, ?_, ?_⟩
  · unfold messageHandlerFactory MessageTypeEVENT MessageTypeREQ MessageTypeAUTH MessageTypeCLOSE
    rw [if_neg h1, if_neg h2, if_neg h3, if_neg h4]
  · show (s.toList.take 64).length ≤ 64
    exact List.length_take_le _ _

/-- C8 witness: the factory at the concrete unknown type FOO. -/
theorem c8_factory_witness :
    (("FOO") ≠ ("EVENT") ∧ ("FOO") ≠ ("REQ") ∧ ("FOO") ≠ ("AUTH") ∧ ("FOO") ≠ ("CLOSE")) ∧
    (messageHandlerFactory ("EVENT") = Except.ok Handler.eventMessageHandler ∧
     messageHandlerFactory ("REQ") = Except.ok Handler.subscribeMessageHandler ∧
     messageHandlerFactory ("AUTH") = Except.ok Handler.authEventMessageHandler ∧
     messageHandlerFactory ("CLOSE") = Except.ok Handler.unsubscribeMessageHandler ∧
     messageHandlerFactory ("FOO") =
       Except.error (("Unknown message type: ") ++ substring64 ("FOO")) ∧
     (substring64 ("FOO")).length ≤ 64) :=
  ⟨by decide, c8_factory_known_types_and_truncated_error ("FOO") (by decide)⟩

/-- C9: the claim states that every operator entry point rejects, before
any mutation, any node name containing a character outside letters,
digits and underscore.  The shared check pipes the name through a quiet
line-oriented grep, which accepts the whole name as soon as ONE of its
lines matches: the name consisting of the line a followed by the line
semicolon passes the check even though it contains newline and
semicolon, and `add-storage-node.sh` then mutates the whitelist files
with it and interpolates it into SQL. -/
theorem c9_multiline_name_passes_validation :
    grepNameCheck ("a\n;") = true ∧
    fullNameMatch ("a\n;") = false ∧
    (addStorageNode ⟨⟨true, [], []⟩, [⟨("events_hot"), ⟨TsBound.ninf, TsBound.pinf⟩⟩]⟩
        ⟨("200:1::1"), ("a\n;"), ("pw"), TsBound.fin 0, TsBound.fin 10,
         some ("kX")⟩).1.mesh.allowedKeys = [("kX")] ∧
    (addStorageNode ⟨⟨true, [], []⟩, [⟨("events_hot"), ⟨TsBound.ninf, TsBound.pinf⟩⟩]⟩
        ⟨("200:1::1"), ("a\n;"), ("pw"), TsBound.fin 0, TsBound.fin 10,
         some ("kX")⟩).1.mesh.nodeKeys = [(("a\n;"), ("kX"))] := by
  refine ⟨by decide, by decide, by decide, by decide⟩

theorem mem_meshAllow (m : MeshState) (n k : String) : k ∈ (meshAllow m n k).allowedKeys := by
  unfold meshAllow
  split
  case isTrue h =>
    rw [List.any_eq_true] at h
    obtain ⟨x, hx, hxk⟩ := h
    exact (eq_of_beq hxk) ▸ hx
  case isFalse h => simp

/-- C3 counterexample: against a topology with an attached node over
the range 0 to 100 and the hot partition above it, an `addNode` whose
range 50 to 150 overlaps both leaves the attach step failed, yet the
mesh allow-list is no longer its initial one-key value — the supplied
public key was already whitelisted in step 1 and is not rolled back, so
the three subsystems are NOT left completely unchanged. -/
theorem c3_overlap_counterexample :
    (addStorageNode
        ⟨⟨true, [("k1")], [(("n1"), ("k1"))]⟩,
         [⟨("events_hot"), ⟨TsBound.fin 100, TsBound.pinf⟩⟩,
          ⟨("events_archive_n1"), ⟨TsBound.fin 0, TsBound.fin 100⟩⟩]⟩
        ⟨("200:abcd::1"), ("n2"), ("pw"), TsBound.fin 50, TsBound.fin 150,
         some ("k2")⟩).2 = ScriptResult.completed false ∧
    (addStorageNode
        ⟨⟨true, [("k1")], [(("n1"), ("k1"))]⟩,
         [⟨("events_hot"), ⟨TsBound.fin 100, TsBound.pinf⟩⟩,
          ⟨("events_archive_n1"), ⟨TsBound.fin 0, TsBound.fin 100⟩⟩]⟩
        ⟨("200:abcd::1"), ("n2"), ("pw"), TsBound.fin 50, TsBound.fin 150,
         some ("k2")⟩).1.mesh.allowedKeys ≠ [("k1")] := by
  refine ⟨by decide, by decide⟩

/-- C3 amended: an `addNode` whose range overlaps an attached partition
fails at the attach step and attaches no partition, but the mesh
allow-list mutation performed first is not rolled back: a supplied
public key remains allow-listed after the failure. -/
theorem c3_overlap_no_attach_but_key_kept (st : CoordState) (a : AddNodeArgs) (k : String)
    (hname : grepNameCheck a.nodeName = true)
    (hkey : a.pubkey = some k)
    (hfiles : st.mesh.filesPresent = true)
    (hover : st.partitions.any
        (fun p => rangesOverlap p.range ⟨a.fromTs, a.toTs⟩) = true) :
    (addStorageNode st a).2 = ScriptResult.completed false ∧
    (addStorageNode st a).1.partitions = st.partitions ∧
    k ∈ (addStorageNode st a).1.mesh.allowedKeys := by
  have hover2 : ({ st with mesh := meshAllow st.mesh a.nodeName k } : CoordState).partitions.any
      (fun p => rangesOverlap p.range ⟨a.fromTs, a.toTs⟩ ||
        p.name == archivePartName a.nodeName) = true := by
    show st.partitions.any _ = true
    rw [List.any_eq_true] at hover ⊢
    obtain ⟨p, hp, hpp⟩ := hover
    exact ⟨p, hp, by simp [hpp]⟩
  have hatt : attachStep { st with mesh := meshAllow st.mesh a.nodeName k } a =
      ({ st with mesh := meshAllow st.mesh a.nodeName k }, ScriptResult.completed false) := by
    simp only [attachStep]
    rw [if_pos hover2]
  have hrun : addStorageNode st a =
      ({ st with mesh := meshAllow st.mesh a.nodeName k }, ScriptResult.completed false) := by
    unfold addStorageNode
    rw [hname, hkey]
    simp only [Bool.not_true, Bool.false_eq_true, if_false, hfiles]
    exact hatt
  rw [hrun]
  exact ⟨rfl, rfl, mem_meshAllow st.mesh a.nodeName k⟩

/-- C3 witness: the amended behaviour at the counterexample's input. -/
theorem c3_overlap_witness :
    (grepNameCheck ("n2") = true ∧
     ([⟨("events_hot"), ⟨TsBound.fin 100, TsBound.pinf⟩⟩,
       ⟨("events_archive_n1"), ⟨TsBound.fin 0, TsBound.fin 100⟩⟩] : List Partition).any
        (fun p => rangesOverlap p.range ⟨TsBound.fin 50, TsBound.fin 150⟩) = true) ∧
    ((addStorageNode
        ⟨⟨true, [("k1")], [(("n1"), ("k1"))]⟩,
         [⟨("events_hot"), ⟨TsBound.fin 100, TsBound.pinf⟩⟩,
          ⟨("events_archive_n1"), ⟨TsBound.fin 0, TsBound.fin 100⟩⟩]⟩
        ⟨("200:abcd::1"), ("n2"), ("pw"), TsBound.fin 50, TsBound.fin 150,
         some ("k2")⟩).2 = ScriptResult.completed false ∧
     (addStorageNode
        ⟨⟨true, [("k1")], [(("n1"), ("k1"))]⟩,
         [⟨("events_hot"), ⟨TsBound.fin 100, TsBound.pinf⟩⟩,
          ⟨("events_archive_n1"), ⟨TsBound.fin 0, TsBound.fin 100⟩⟩]⟩
        ⟨("200:abcd::1"), ("n2"), ("pw"), TsBound.fin 50, TsBound.fin 150,
         some ("k2")⟩).1.partitions =
       [⟨("events_hot"), ⟨TsBound.fin 100, TsBound.pinf⟩⟩,
        ⟨("events_archive_n1"), ⟨TsBound.fin 0, TsBound.fin 100⟩⟩] ∧
     ("k2") ∈ (addStorageNode
        ⟨⟨true, [("k1")], [(("n1"), ("k1"))]⟩,
         [⟨("events_hot"), ⟨TsBound.fin 100, TsBound.pinf⟩⟩,
          ⟨("events_archive_n1"), ⟨TsBound.fin 0, TsBound.fin 100⟩⟩]⟩
        ⟨("200:abcd::1"), ("n2"), ("pw"), TsBound.fin 50, TsBound.fin 150,
         some ("k2")⟩).1.mesh.allowedKeys) :=
  ⟨⟨by decide, by decide⟩,
   c3_overlap_no_attach_but_key_kept _ _ ("k2") (by decide) rfl (by decide) (by decide)⟩

/-- C4 counterexample: with a key recorded for node n1, the very first
externally visible step of `remove-storage-node.sh` is the whitelist
removal, not the partition detach the claim requires first — the script
runs in the same order as `add-storage-node.sh`, not the reverse. -/
theorem c4_remove_order_counterexample :
    (removeStorageNode
        ⟨⟨true, [("k1")], [(("n1"), ("k1"))]⟩,
         [⟨("events_hot"), ⟨TsBound.fin 100, TsBound.pinf⟩⟩,
          ⟨("events_archive_n1"), ⟨TsBound.fin 0, TsBound.fin 100⟩⟩]⟩ ("n1")).2.1 =
      [OpAction.removeAllowedKey ("k1"), OpAction.reloadMesh,
       OpAction.detachPartition ("events_archive_n1"), OpAction.dropFdwObjects ("n1")] ∧
    (removeStorageNode
        ⟨⟨true, [("k1")], [(("n1"), ("k1"))]⟩,
         [⟨("events_hot"), ⟨TsBound.fin 100, TsBound.pinf⟩⟩,
          ⟨("events_archive_n1"), ⟨TsBound.fin 0, TsBound.fin 100⟩⟩]⟩ ("n1")).2.1.head? ≠
      some (OpAction.detachPartition ("events_archive_n1")) := by
  refine ⟨by decide, by decide⟩

/-- C4 amended: `removeNode` performs its steps in the SAME order as
`addNode`, not the reverse: it first removes the node's recorded key
from the mesh allow-list (skipping that step without error when no key
is recorded), then detaches the node's partition and drops the FDW
objects; in both cases the script does not abort. -/
theorem c4_remove_order_whitelist_first (st : CoordState) (name : String)
    (hname : grepNameCheck name = true)
    (hfiles : st.mesh.filesPresent = true) :
    (removeStorageNode st name).2.1 =
      (match lookupNodeKey st.mesh.nodeKeys name with
        | some k => [OpAction.removeAllowedKey k, OpAction.reloadMesh]
        | none => []) ++
      [OpAction.detachPartition (archivePartName name),
       OpAction.dropFdwObjects name] ∧
    (∃ b, (removeStorageNode st name).2.2 = ScriptResult.completed b) := by
  unfold removeStorageNode
  rw [hname]
  simp only [Bool.not_true, Bool.false_eq_true, if_false, hfiles, if_true]
  cases h : lookupNodeKey st.mesh.nodeKeys name <;> simp [h]

/-- C4 witness: the amended order at a state with a recorded key. -/
theorem c4_remove_order_witness :
    (grepNameCheck ("n1") = true ∧ true = true) ∧
    ((removeStorageNode
        ⟨⟨true, [("k1")], [(("n1"), ("k1"))]⟩,
         [⟨("events_hot"), ⟨TsBound.fin 100, TsBound.pinf⟩⟩,
          ⟨("events_archive_n1"), ⟨TsBound.fin 0, TsBound.fin 100⟩⟩]⟩ ("n1")).2.1 =
      (match lookupNodeKey
          (⟨⟨true, [("k1")], [(("n1"), ("k1"))]⟩,
           [⟨("events_hot"), ⟨TsBound.fin 100, TsBound.pinf⟩⟩,
            ⟨("events_archive_n1"), ⟨TsBound.fin 0, TsBound.fin 100⟩⟩]⟩ : CoordState).mesh.nodeKeys
          ("n1") with
        | some k => [OpAction.removeAllowedKey k, OpAction.reloadMesh]
        | none => []) ++
      [OpAction.detachPartition (archivePartName ("n1")),
       OpAction.dropFdwObjects ("n1")] ∧
     (∃ b, (removeStorageNode
        ⟨⟨true, [("k1")], [(("n1"), ("k1"))]⟩,
         [⟨("events_hot"), ⟨TsBound.fin 100, TsBound.pinf⟩⟩,
          ⟨("events_archive_n1"), ⟨TsBound.fin 0, TsBound.fin 100⟩⟩]⟩ ("n1")).2.2 =
        ScriptResult.completed b)) :=
  ⟨⟨by decide, rfl⟩,
   c4_remove_order_whitelist_first
     ⟨⟨true, [("k1")], [(("n1"), ("k1"))]⟩,
      [⟨("events_hot"), ⟨TsBound.fin 100, TsBound.pinf⟩⟩,
       ⟨("events_archive_n1"), ⟨TsBound.fin 0, TsBound.fin 100⟩⟩]⟩ ("n1")
     (by decide) rfl⟩

theorem rangesOverlap_nobound (r : PRange) :
    rangesOverlap r (queryRange none) = TsBound.ltB r.lo r.hi := by
  obtain ⟨lo, hi⟩ := r
  cases lo <;> cases hi <;>
    simp [rangesOverlap, queryRange, TsBound.maxB, TsBound.minB, TsBound.ltB]

theorem rangesOverlap_since_pruned (r : PRange) {s : Int}
    (h : TsBound.ltB (TsBound.fin s) r.hi = false) :
    rangesOverlap r (queryRange (some s)) = false := by
  obtain ⟨lo, hi⟩ := r
  simp only at h
  show TsBound.ltB (TsBound.maxB lo (TsBound.fin s)) (TsBound.minB hi TsBound.pinf) = false
  have hmin : TsBound.minB hi TsBound.pinf = hi := by
    cases hi <;> simp [TsBound.minB, TsBound.ltB]
  rw [hmin]
  cases hi with
  | ninf => cases TsBound.maxB lo (TsBound.fin s) <;> rfl
  | pinf => simp [TsBound.ltB] at h
  | fin b =>
    have hb : ¬ s < b := by simpa [TsBound.ltB] using h
    cases lo with
    | ninf =>
      show TsBound.ltB (TsBound.fin s) (TsBound.fin b) = false
      simpa [TsBound.ltB] using hb
    | pinf =>
      show TsBound.ltB TsBound.pinf (TsBound.fin b) = false
      rfl
    | fin a =>
      rw [TsBound.maxB]
      split
      case isTrue has =>
        show TsBound.ltB (TsBound.fin s) (TsBound.fin b) = false
        simpa [TsBound.ltB] using hb
      case isFalse has =>
        show TsBound.ltB (TsBound.fin a) (TsBound.fin b) = false
        have ha : ¬ a < s := by simpa [TsBound.ltB] using has
        simp only [TsBound.ltB, decide_eq_false_iff_not]
        omega

theorem rangesOverlap_since_hot {lo : TsBound} {s : Int}
    (h : TsBound.ltB lo (TsBound.fin s) = true) :
    rangesOverlap ⟨lo, TsBound.pinf⟩ (queryRange (some s)) = true := by
  cases lo <;>
    simp_all [rangesOverlap, queryRange, TsBound.maxB, TsBound.minB, TsBound.ltB]

/-- C6: partition pruning over the attached ranges: a query whose
`since` bound is strictly above the hot partition's lower bound visits
exactly the hot partition (every archive partition, lying entirely below
the hot lower bound, is pruned), and a query with no time bound visits
every attached partition. -/
theorem c6_pruning_since_hot_only_and_nobound_all
    (hname : String) (hlo : TsBound) (archives : List Partition) (s : Int)
    (hhot_lo : TsBound.ltB hlo (TsBound.fin s) = true)
    (harch : ∀ p ∈ archives, TsBound.ltB (TsBound.fin s) p.range.hi = false)
    (hne : TsBound.ltB hlo TsBound.pinf = true ∧
      ∀ p ∈ archives, TsBound.ltB p.range.lo p.range.hi = true) :
    visitedPartitions (⟨hname, ⟨hlo, TsBound.pinf⟩⟩ :: archives) (some s) =
      [⟨hname, ⟨hlo, TsBound.pinf⟩⟩] ∧
    visitedPartitions (⟨hname, ⟨hlo, TsBound.pinf⟩⟩ :: archives) none =
      ⟨hname, ⟨hlo, TsBound.pinf⟩⟩ :: archives := by
  constructor
  · unfold visitedPartitions
    rw [List.filter_cons_of_pos (by exact rangesOverlap_since_hot hhot_lo)]
    rw [List.filter_eq_nil_iff.mpr]
    intro p hp
    have h1 : rangesOverlap p.range (queryRange (some s)) = false :=
      rangesOverlap_since_pruned p.range (harch p hp)
    simp only [h1, Bool.false_eq_true, not_false_eq_true]
  · unfold visitedPartitions
    rw [List.filter_cons_of_pos (by rw [rangesOverlap_nobound]; exact hne.1)]
    rw [List.filter_eq_self.mpr]
    intro p hp
    rw [rangesOverlap_nobound]
    exact hne.2 p hp

/-- C6 witness: one archive partition below a narrowed hot partition,
with a since bound above the hot lower bound. -/
theorem c6_pruning_witness :
    (TsBound.ltB (TsBound.fin 100) (TsBound.fin 150) = true ∧
     (∀ p ∈ ([⟨("events_archive_n1"), ⟨TsBound.fin 0, TsBound.fin 100⟩⟩] : List Partition),
        TsBound.ltB (TsBound.fin 150) p.range.hi = false) ∧
     (TsBound.ltB (TsBound.fin 100) TsBound.pinf = true ∧
      ∀ p ∈ ([⟨("events_archive_n1"), ⟨TsBound.fin 0, TsBound.fin 100⟩⟩] : List Partition),
        TsBound.ltB p.range.lo p.range.hi = true)) ∧
    (visitedPartitions
        [⟨("events_hot"), ⟨TsBound.fin 100, TsBound.pinf⟩⟩,
         ⟨("events_archive_n1"), ⟨TsBound.fin 0, TsBound.fin 100⟩⟩] (some 150) =
      [⟨("events_hot"), ⟨TsBound.fin 100, TsBound.pinf⟩⟩] ∧
     visitedPartitions
        [⟨("events_hot"), ⟨TsBound.fin 100, TsBound.pinf⟩⟩,
         ⟨("events_archive_n1"), ⟨TsBound.fin 0, TsBound.fin 100⟩⟩] none =
      [⟨("events_hot"), ⟨TsBound.fin 100, TsBound.pinf⟩⟩,
       ⟨("events_archive_n1"), ⟨TsBound.fin 0, TsBound.fin 100⟩⟩]) :=
  ⟨⟨by decide, by decide, by decide, by decide⟩,
   c6_pruning_since_hot_only_and_nobound_all ("events_hot") (TsBound.fin 100)
     [⟨("events_archive_n1"), ⟨TsBound.fin 0, TsBound.fin 100⟩⟩] 150
     (by decide) (by decide) ⟨by decide, by decide⟩⟩

theorem windowLoop_hot_ge {cutoff W : Int} {B : Nat} {oracle : Nat → Bool}
    {r : EventRow} (hr : cutoff ≤ r.created_at) (fuel : Nat) :
    ∀ (bs : Int) (acc : RunAcc),
      (r ∈ (windowLoop cutoff W B oracle fuel bs acc).st.hot ↔ r ∈ acc.st.hot) := by
  induction fuel with
  | zero => intro bs acc; exact Iff.rfl
  | succ fuel ih =>
    intro bs acc
    simp only [windowLoop]
    by_cases hbs : bs < cutoff
    · rw [if_pos hbs]
      have hble : min (bs + W) cutoff ≤ cutoff := min_le_right _ _
      have hw : inWindow bs (min (bs + W) cutoff) r = false := by
        unfold inWindow
        have h2 : ¬ r.created_at < min (bs + W) cutoff := by omega
        simp [h2]
      by_cases hz : (windowRows acc.st.hot bs (min (bs + W) cutoff)).length = 0
      · rw [if_pos hz]; exact ih _ acc
      · rw [if_neg hz]
        rw [ih _ _]
        show r ∈ acc.st.hot.filter (fun x => !inWindow bs (min (bs + W) cutoff) x) ↔
          r ∈ acc.st.hot
        constructor
        · intro h; exact (List.mem_filter.mp h).1
        · intro h; exact List.mem_filter.mpr ⟨h, by rw [hw]; rfl⟩
    · rw [if_neg hbs]

theorem windowLoop_remote_lt {cutoff W : Int} {B : Nat} {oracle : Nat → Bool}
    (fuel : Nat) :
    ∀ (bs : Int) (acc : RunAcc) (x : EventRow),
      x ∈ (windowLoop cutoff W B oracle fuel bs acc).st.remote →
      x ∈ acc.st.remote ∨ x.created_at < cutoff := by
  induction fuel with
  | zero => intro bs acc x h; exact Or.inl h
  | succ fuel ih =>
    intro bs acc x h
    simp only [windowLoop] at h
    by_cases hbs : bs < cutoff
    · rw [if_pos hbs] at h
      by_cases hz : (windowRows acc.st.hot bs (min (bs + W) cutoff)).length = 0
      · rw [if_pos hz] at h; exact ih _ _ _ h
      · rw [if_neg hz] at h
        rcases ih _ _ _ h with h' | h'
        · have h'' : x ∈ (copySubLoop B oracle
              (windowRows acc.st.hot bs (min (bs + W) cutoff)).length acc.oidx
              (windowRows acc.st.hot bs (min (bs + W) cutoff)) acc.st.remote
              acc.archived).1 := h'
          rcases mem_copySubLoop h'' with h3 | h3
          · exact Or.inl h3
          · right
            have hx := (mem_windowRows.mp h3).2
            unfold inWindow at hx
            have hble : min (bs + W) cutoff ≤ cutoff := min_le_right _ _
            simp only [Bool.and_eq_true, decide_eq_true_eq] at hx
            omega
        · exact Or.inr h'
    · rw [if_neg hbs] at h; exact Or.inl h

theorem foldl_min_le_init (xs : List EventRow) (a : Int) :
    xs.foldl (fun m x => min m x.created_at) a ≤ a := by
  induction xs generalizing a with
  | nil => exact le_refl a
  | cons y ys ih => exact le_trans (ih _) (min_le_left _ _)

theorem foldl_min_le_mem {xs : List EventRow} {r : EventRow} (h : r ∈ xs) (a : Int) :
    xs.foldl (fun m x => min m x.created_at) a ≤ r.created_at := by
  induction xs generalizing a with
  | nil => cases h
  | cons y ys ih =>
    rcases List.mem_cons.mp h with h' | h'
    · subst h'
      exact le_trans (foldl_min_le_init ys _) (min_le_right _ _)
    · exact ih h' _

theorem minCreatedAt_le {rows : List EventRow} {r : EventRow} (h : r ∈ rows) :
    minCreatedAt rows ≤ r.created_at := by
  cases rows with
  | nil => cases h
  | cons x xs =>
    rw [minCreatedAt]
    rcases List.mem_cons.mp h with h' | h'
    · subst h'
      exact foldl_min_le_init xs _
    · exact foldl_min_le_mem h' _

theorem windowLoop_clears {cutoff W : Int} {B : Nat} {oracle : Nat → Bool}
    (hW : 1 ≤ W) (fuel : Nat) :
    ∀ (bs : Int) (acc : RunAcc) (r : EventRow),
      (cutoff - bs).toNat < fuel →
      r ∈ (windowLoop cutoff W B oracle fuel bs acc).st.hot →
      bs ≤ r.created_at → r.created_at < cutoff → False := by
  induction fuel with
  | zero => intro bs acc r hf _ _ _; omega
  | succ fuel ih =>
    intro bs acc r hf hmem h1 h2
    have hbs : bs < cutoff := by omega
    simp only [windowLoop] at hmem
    rw [if_pos hbs] at hmem
    have hbe1 : bs + 1 ≤ min (bs + W) cutoff := le_min (by omega) (by omega)
    have hbe2 : min (bs + W) cutoff ≤ cutoff := min_le_right _ _
    by_cases hcase : r.created_at < min (bs + W) cutoff
    · by_cases hz : (windowRows acc.st.hot bs (min (bs + W) cutoff)).length = 0
      · rw [if_pos hz] at hmem
        have hr' : r ∈ acc.st.hot := windowLoop_hot_subset hmem
        have hin : r ∈ windowRows acc.st.hot bs (min (bs + W) cutoff) := by
          rw [mem_windowRows]
          refine ⟨hr', ?_⟩
          unfold inWindow
          simp only [Bool.and_eq_true, decide_eq_true_eq]
          exact ⟨h1, hcase⟩
        rw [List.length_eq_zero] at hz
        rw [hz] at hin
        exact (List.not_mem_nil r) hin
      · rw [if_neg hz] at hmem
        have hr' : r ∈ acc.st.hot.filter
            (fun x => !inWindow bs (min (bs + W) cutoff) x) :=
          windowLoop_hot_subset hmem
        rw [List.mem_filter] at hr'
        have hwin : inWindow bs (min (bs + W) cutoff) r = true := by
          unfold inWindow
          simp only [Bool.and_eq_true, decide_eq_true_eq]
          exact ⟨h1, hcase⟩
        rw [hwin] at hr'
        simp at hr'
    · push_neg at hcase
      have hf' : (cutoff - min (bs + W) cutoff).toNat < fuel := by omega
      by_cases hz : (windowRows acc.st.hot bs (min (bs + W) cutoff)).length = 0
      · rw [if_pos hz] at hmem
        exact ih _ acc r hf' hmem hcase h2
      · rw [if_neg hz] at hmem
        exact ih _ _ r hf' hmem hcase h2

/-- C10: an archival run with cutoff C never touches hot rows at or
above C and never copies such rows to the remote: every window's upper
bound is clamped to the cutoff, and both the copy and the delete
statements are restricted to the window. -/
theorem c10_cutoff_frame (cutoff W : Int) (B : Nat) (oracle : Nat → Bool)
    (st : ArchState) (r : EventRow) (hr : cutoff ≤ r.created_at) :
    (r ∈ (archiveRun cutoff W B oracle st).1.hot ↔ r ∈ st.hot) ∧
    (r ∈ (archiveRun cutoff W B oracle st).1.remote → r ∈ st.remote) := by
  simp only [archiveRun]
  by_cases h0 : (st.hot.filter (fun r => r.created_at < cutoff)).length = 0
  · rw [if_pos h0]
    exact ⟨Iff.rfl, fun h => h⟩
  · rw [if_neg h0]
    constructor
    · exact windowLoop_hot_ge hr _ _ _
    · intro h
      rcases windowLoop_remote_lt _ _ _ _ h with h' | h'
      · exact h'
      · omega

/-- C10 witness: a hot row at timestamp 500 with cutoff 200 survives the
run untouched and is not copied. -/
theorem c10_cutoff_frame_witness :
    (200 : Int) ≤ (500 : Int) ∧
    (((⟨("e9"), 500, []⟩ : EventRow) ∈
        (archiveRun 200 86400 5000 (fun _ => true)
          ⟨[⟨("e9"), 500, []⟩], [], []⟩).1.hot ↔
      (⟨("e9"), 500, []⟩ : EventRow) ∈ ([⟨("e9"), 500, []⟩] : List EventRow)) ∧
     ((⟨("e9"), 500, []⟩ : EventRow) ∈
        (archiveRun 200 86400 5000 (fun _ => true)
          ⟨[⟨("e9"), 500, []⟩], [], []⟩).1.remote →
      (⟨("e9"), 500, []⟩ : EventRow) ∈ ([] : List EventRow))) :=
  ⟨by decide,
   c10_cutoff_frame 200 86400 5000 (fun _ => true)
     ⟨[⟨("e9"), 500, []⟩], [], []⟩ ⟨("e9"), 500, []⟩ (by decide)⟩

/-- C5: running the archival job again immediately after a completed run
with the same cutoff reports nothing to archive and leaves the state
unchanged — zero rows copied, zero rows deleted.  The batch window of
the first run must be positive (the script does not terminate
otherwise). -/
theorem c5_second_run_nothing_to_archive (cutoff W W2 : Int) (B B2 : Nat)
    (oracle oracle2 : Nat → Bool) (st : ArchState) (hW : 1 ≤ W) :
    archiveRun cutoff W2 B2 oracle2 ((archiveRun cutoff W B oracle st).1) =
      ((archiveRun cutoff W B oracle st).1, ArchiveReport.nothingToArchive) := by
  have key : ∀ x ∈ (archiveRun cutoff W B oracle st).1.hot, ¬ x.created_at < cutoff := by
    intro x hx hlt
    revert hx
    simp only [archiveRun]
    by_cases h0 : (st.hot.filter (fun r => r.created_at < cutoff)).length = 0
    · rw [if_pos h0]
      intro hx
      have hmem : x ∈ st.hot.filter (fun r => r.created_at < cutoff) :=
        List.mem_filter.mpr ⟨hx, by simp [hlt]⟩
      rw [List.length_eq_zero] at h0
      rw [h0] at hmem
      exact (List.not_mem_nil x) hmem
    · rw [if_neg h0]
      intro hx
      have hxs : x ∈ st.hot := windowLoop_hot_subset hx
      have hbelow : x ∈ st.hot.filter (fun r => r.created_at < cutoff) :=
        List.mem_filter.mpr ⟨hxs, by simp [hlt]⟩
      have hmin := minCreatedAt_le hbelow
      exact windowLoop_clears hW
        ((cutoff - minCreatedAt (st.hot.filter (fun r => r.created_at < cutoff))).toNat + 1)
        (minCreatedAt (st.hot.filter (fun r => r.created_at < cutoff)))
        ⟨st, 0, 0, 0⟩ x (by omega) hx hmin hlt
  set st1 := (archiveRun cutoff W B oracle st).1 with hst1
  have hfil : st1.hot.filter (fun r => r.created_at < cutoff) = [] := by
    rw [List.filter_eq_nil_iff]
    intro a ha
    simp only [decide_eq_true_eq]
    exact key a ha
  simp only [archiveRun]
  rw [hfil]
  rfl

/-- C5 witness: a one-row archive with cutoff 200 followed by a second
run of the same job. -/
theorem c5_second_run_witness :
    (1 : Int) ≤ (86400 : Int) ∧
    archiveRun 200 86400 5000 (fun _ => true)
        ((archiveRun 200 86400 5000 (fun _ => true)
          ⟨[⟨("e1"), 100, []⟩], [], []⟩).1) =
      ((archiveRun 200 86400 5000 (fun _ => true)
          ⟨[⟨("e1"), 100, []⟩], [], []⟩).1,
       ArchiveReport.nothingToArchive) :=
  ⟨by decide,
   c5_second_run_nothing_to_archive 200 86400 86400 5000 5000
     (fun _ => true) (fun _ => true) ⟨[⟨("e1"), 100, []⟩], [], []⟩ (by decide)⟩
